import Mathlib

/-!
Shallow embedding of the `ona-ssh-tool` repository (a Node.js CLI that lists
Gitpod environments, lets the user pick one, starts it when necessary and
connects to it over ssh or through an editor's remote feature).

The JavaScript string primitives used by the source (`String.prototype.trim`,
`split('\n')`, `split(/\s+/)`, `toLowerCase`, `includes`, template literals and
the one regular expression `/\/([^\/]+)\.git$/`) are modelled below as
structurally recursive functions on `List Char`, so that every definition is
executable and kernel-reducible.  JavaScript's `\s` character class is modelled
by `jsWhitespace` (the JS whitespace set).
-/

/-- The JS `\s` / `trim` whitespace set (space, tab, line terminators, and the
Unicode space characters recognised by JavaScript). -/
def jsWhitespace (c : Char) : Bool :=
  c = ' ' || c = '\t' || c = '\n' || c = '\r' ||
  c = '\x0b' || c = '\x0c' || c = '\u00A0' || c = '\uFEFF' ||
  c = '\u1680' || ('\u2000' ≤ c && c ≤ '\u200A') ||
  c = '\u2028' || c = '\u2029' || c = '\u202F' || c = '\u205F' || c = '\u3000'

/-- Strip leading and trailing JS whitespace from a character list. -/
def trimChars (cs : List Char) : List Char :=
  ((cs.dropWhile jsWhitespace).reverse.dropWhile jsWhitespace).reverse

/-- JS `s.trim()`. -/
def jsTrim (s : String) : String := ⟨trimChars s.data⟩

/-- Split a character list at every character satisfying `p`, keeping empty
chunks, exactly as JS `String.prototype.split` does for a single-character
(or single-character-class) separator.  `acc` is the current chunk, reversed. -/
def splitPredAux (p : Char → Bool) : List Char → List Char → List String
  | [], acc => [⟨acc.reverse⟩]
  | c :: cs, acc =>
      if p c then ⟨acc.reverse⟩ :: splitPredAux p cs []
      else splitPredAux p cs (c :: acc)

/-- JS `s.split('\n')`. -/
def splitLines (s : String) : List String :=
  splitPredAux (fun c => c = '\n') s.data []

/-- JS `line.trim().split(/\s+/)`: the whitespace-separated tokens of a line.
On a trimmed non-blank line the regex split produces exactly the maximal
non-whitespace runs, which is what splitting at every whitespace character and
discarding empty chunks yields. -/
def jsSplitWs (line : String) : List String :=
  (splitPredAux jsWhitespace (jsTrim line).data []).filter (fun t => t ≠ "")

/-- JS `s.toLowerCase()` (the source only lower-cases ASCII phase strings). -/
def jsToLower (s : String) : String := ⟨s.data.map Char.toLower⟩

/-- JS truthiness of a string: every string except `""` is truthy. -/
def jsTruthy (s : String) : Bool := !(s == "")

/-- Does `pat` occur (as a contiguous run) starting at some position of `s`? -/
def includesAux (pat : List Char) : List Char → Bool
  | [] => pat.isPrefixOf []
  | c :: rest => pat.isPrefixOf (c :: rest) || includesAux pat rest

/-- JS `s.includes(pat)`. -/
def jsIncludes (s pat : String) : Bool := includesAux pat.data s.data

/-- The regex `repository.match(/\/([^\/]+)\.git$/)` of `parseGitpodEnvironments`:
it matches exactly when `repository` ends in `".git"` and the part before that
suffix contains a `'/'` followed by at least one further character with no
later `'/'`; the captured group is then the segment between the last `'/'` and
the final `".git"`.  On a match the source uses the group, otherwise the full
`repository` string. -/
def extractRepoName (repository : String) : String :=
  let cs := repository.data
  if List.isSuffixOf ".git".data cs then
    let pre : List Char := cs.take (cs.length - 4)
    let segs := splitPredAux (fun c => c = '/') pre []
    let lastSeg := segs.getLastD ""
    if 2 ≤ segs.length ∧ lastSeg ≠ "" then lastSeg else repository
  else repository

/-- One parsed row of `gitpod environment list` output
(the `GitpodEnvironment` typedef of the source). -/
structure GitpodEnvironment where
  id : String
  repository : String
  branch : String
  classId : String
  phase : String
  repoName : String
  displayName : String
deriving DecidableEq, Repr

/-- Build the record returned by the row-mapping closure of
`parseGitpodEnvironments` from the whitespace tokens of a row
(`parts[0] .. parts[4]`; tokens beyond the fifth are never read). -/
def mkEnvironment (parts : List String) : GitpodEnvironment :=
  let id := parts.getD 0 ""
  let repository := parts.getD 1 ""
  let branch := parts.getD 2 ""
  let classId := parts.getD 3 ""
  let phase := parts.getD 4 ""
  let repoName := extractRepoName repository
  { id := id, repository := repository, branch := branch, classId := classId,
    phase := phase, repoName := repoName,
    displayName := repoName ++ " [" ++ branch ++ "]" }

/-- The row-mapping closure of `parseGitpodEnvironments` in `src/unnamed/part_001`
(and `src/unnamed/part_000`): rows with fewer than five tokens map to `null`. -/
def parseLine (line : String) : Option GitpodEnvironment :=
  let parts := jsSplitWs line
  if parts.length < 5 then none
  else some (mkEnvironment parts)

/-- `parseGitpodEnvironments` of `src/unnamed/part_001` / `part_000`:
trim the output, split into lines, drop the header line, keep the non-blank
lines, map each row and drop the `null`s (`.map(...).filter(Boolean)` is
`List.filterMap`). -/
def parseGitpodEnvironments (output : String) : List GitpodEnvironment :=
  let lines := splitLines (jsTrim output)
  let envLines := (lines.drop 1).filter (fun line => jsTrim line ≠ "")
  envLines.filterMap parseLine

/-- The non-blank data lines the parser works through: the lines of the trimmed
input text, minus the header line, minus blank lines. -/
def dataLines (output : String) : List String :=
  ((splitLines (jsTrim output)).drop 1).filter (fun line => jsTrim line ≠ "")

/-- The row-mapping closure of `parseGitpodEnvironments` in `src/index.js`,
which additionally drops any row whose phase is not `"running"`
(case-insensitively). -/
def parseLineRunning (line : String) : Option GitpodEnvironment :=
  let parts := jsSplitWs line
  if parts.length < 5 then none
  else if jsToLower (parts.getD 4 "") ≠ "running" then none
  else some (mkEnvironment parts)

/-- `parseGitpodEnvironments` of `src/index.js`. -/
def parseGitpodEnvironmentsIndex (output : String) : List GitpodEnvironment :=
  let lines := splitLines (jsTrim output)
  let envLines := (lines.drop 1).filter (fun line => jsTrim line ≠ "")
  envLines.filterMap parseLineRunning

/-- `SSH_HOST_SUFFIX` of `src/unnamed/part_001`. -/
def SSH_HOST_SUFFIX : String := "gitpod.environment"

/-- `DEFAULT_WORKSPACE_PATH` of `src/unnamed/part_001`. -/
def DEFAULT_WORKSPACE_PATH : String := "/workspaces/obsidian"

/-- `getSshHost` of `src/unnamed/part_001`: the template literal
`` `${environmentId}.${SSH_HOST_SUFFIX}` ``. -/
def getSshHost (environmentId : String) : String :=
  environmentId ++ "." ++ SSH_HOST_SUFFIX

/-- The shell command issued by `startEnvironment`:
`` `gitpod environment start ${environmentId}` ``. -/
def startCommandFor (environmentId : String) : String :=
  "gitpod environment start " ++ environmentId

/-- An external invocation issued by the ssh flow: either the start command for
an environment id, or the interactive ssh connection to a host. -/
inductive ToolInvocation where
  | startEnv (environmentId : String)
  | sshConnect (host : String)
deriving DecidableEq, Repr

/-- `ensureEnvironmentRunning` of `src/unnamed/part_001` (the same guard appears
inline in `main` of `src/unnamed/part_000`), viewed through the external
invocations it issues: when the record's phase is not `"running"`
case-insensitively, exactly the start invocation for the record's id;
otherwise nothing. -/
def ensureEnvironmentRunning (environment : GitpodEnvironment) : List ToolInvocation :=
  if jsToLower environment.phase ≠ "running" then
    [ToolInvocation.startEnv environment.id]
  else []

/-- The invocation sequence of `handleSshCommand` after an environment has been
selected: `ensureEnvironmentRunning` followed by `sshIntoGitpod`
(`spawn('ssh', [sshHost])`). -/
def handleSshFlow (environment : GitpodEnvironment) : List ToolInvocation :=
  ensureEnvironmentRunning environment ++
    [ToolInvocation.sshConnect (getSshHost environment.id)]

/-- Outcome of the `execAsync('gitpod environment list')` promise as the
surrounding JS code can observe it: a rejection whose error has
`code === 'ENOENT'`, a rejection with any other code (the message is what
`error.message` holds), or a resolution with the captured `stdout`/`stderr`. -/
inductive ExecOutcome where
  | errNotFound (message : String)
  | errOther (message : String)
  | completed (stdout stderr : String)
deriving DecidableEq, Repr

/-- The message of the error thrown when `stderr` is truthy and `stdout` is
falsy: `` `Error running gitpod command: ${stderr}` ``. -/
def listFailureMessage (stderr : String) : String :=
  "Error running gitpod command: " ++ stderr

/-- The literal probed by `error.message.includes('command not found')`. -/
def NOT_FOUND_MARKER : String := "command not found"

/-- Result of `getGitpodEnvironments`: the `ToolNotFound` error
(`'gitpod CLI not found. Please install it first.'`), a rethrown error carrying
its message (the `ToolError` case carries `listFailureMessage stderr`), or the
parsed environment list. -/
inductive ListOutcome where
  | toolNotFound
  | failure (message : String)
  | ok (environments : List GitpodEnvironment)
deriving DecidableEq, Repr

/-- `getGitpodEnvironments` of `src/unnamed/part_001` (identical in
`src/unnamed/part_000` and `src/index.js` up to the parser used; modelled with
the `part_001` parser).  Note that the `Error` thrown inside the `try` block
when `stderr` is truthy and `stdout` falsy is caught by the function's own
`catch`, whose `error.message.includes('command not found')` test therefore
also applies to `listFailureMessage stderr`. -/
def getGitpodEnvironments (outcome : ExecOutcome) : ListOutcome :=
  match outcome with
  | ExecOutcome.errNotFound _ => ListOutcome.toolNotFound
  | ExecOutcome.errOther message =>
      if jsIncludes message NOT_FOUND_MARKER then ListOutcome.toolNotFound
      else ListOutcome.failure message
  | ExecOutcome.completed stdout stderr =>
      if jsTruthy stderr && !(jsTruthy stdout) then
        let message := listFailureMessage stderr
        if jsIncludes message NOT_FOUND_MARKER then ListOutcome.toolNotFound
        else ListOutcome.failure message
      else ListOutcome.ok (parseGitpodEnvironments stdout)

/-- Outcome of the `execAsync('gitpod environment start ...')` promise as the
code observes it: a rejection with a message, or a resolution with the
captured `stdout`/`stderr`. -/
inductive StartOutcome where
  | rejected (message : String)
  | completed (stdout stderr : String)
deriving DecidableEq, Repr

/-- `` `Failed to start environment: ${detail}` ``. -/
def startFailureMessage (detail : String) : String :=
  "Failed to start environment: " ++ detail

/-- Result of `startEnvironment`: success, or a thrown error with its message. -/
inductive StartResult where
  | ok
  | failure (message : String)
deriving DecidableEq, Repr

/-- `startEnvironment` of `src/unnamed/part_001` (identical in
`src/unnamed/part_000`).  The error thrown when `stderr` is truthy and contains
`'error'` is caught by the function's own `catch` and rewrapped, which prefixes
`'Failed to start environment: '` a second time. -/
def startEnvironment (outcome : StartOutcome) : StartResult :=
  match outcome with
  | StartOutcome.rejected message =>
      StartResult.failure (startFailureMessage message)
  | StartOutcome.completed _ stderr =>
      if jsTruthy stderr && jsIncludes stderr "error" then
        StartResult.failure (startFailureMessage (startFailureMessage stderr))
      else StartResult.ok

/-- A `spawn(command, args)` call. -/
structure SpawnCall where
  command : String
  args : List String
deriving DecidableEq, Repr

/-- `sshIntoGitpod` of `src/unnamed/part_001`: `spawn('ssh', [sshHost])`. -/
def sshIntoGitpod (environmentId : String) : SpawnCall :=
  { command := "ssh", args := [getSshHost environmentId] }

/-- JS `value || dflt` for the optional `options.workspacePath` string:
`undefined` (here `none`) and the empty string are falsy and yield the
default. -/
def jsOrDefault (value : Option String) (dflt : String) : String :=
  match value with
  | none => dflt
  | some s => if s = "" then dflt else s

/-- The `spawn(editorCommand, ['--remote', remoteArg, workspacePath], ...)`
call of `openInEditor` in `src/unnamed/part_001`, given the resolved editor
command and the caller-supplied workspace path (`options.workspacePath`,
absent = `none`).  `remoteArg` is `` `ssh-remote+${sshHost}` ``. -/
def openInEditorSpawn (environmentId : String) (editorCommand : String)
    (workspacePath : Option String) : SpawnCall :=
  let sshHost := getSshHost environmentId
  let path := jsOrDefault workspacePath DEFAULT_WORKSPACE_PATH
  let remoteArg := "ssh-remote+" ++ sshHost
  { command := editorCommand, args := ["--remote", remoteArg, path] }

/-- The trailing-whitespace trim of a character list (the part of JS `trim`
that acts on the end of the string). -/
def trimEndChars (cs : List Char) : List Char :=
  (cs.reverse.dropWhile jsWhitespace).reverse

/-! ## Helper lemmas -/

theorem jsTruthy_eq_true {s : String} : jsTruthy s = true ↔ s ≠ "" := by
  simp [jsTruthy]

theorem jsIncludes_empty_left : jsIncludes "" "error" = false := by decide

/-- A trimmed-out character was present in the original list. -/
theorem mem_of_mem_trimChars {c : Char} {cs : List Char}
    (h : c ∈ trimChars cs) : c ∈ cs := by
  unfold trimChars at h
  rw [List.mem_reverse] at h
  have h1 : c ∈ (cs.dropWhile jsWhitespace).reverse :=
    (List.dropWhile_sublist _).mem h
  rw [List.mem_reverse] at h1
  exact (List.dropWhile_sublist _).mem h1

/-- If the original list is whitespace-free at its ends only, `trimChars` of an
empty `dropWhile` is empty. -/
theorem trimChars_eq_nil_of_dropWhile_nil {cs : List Char}
    (h : cs.dropWhile jsWhitespace = []) : trimChars cs = [] := by
  unfold trimChars
  rw [h]
  rfl

/-- `splitPredAux` over a run with no separator yields a single chunk. -/
theorem splitPredAux_no_delim (p : Char → Bool) (cs : List Char)
    (h : ∀ c ∈ cs, p c = false) (acc : List Char) :
    splitPredAux p cs acc = [⟨acc.reverse ++ cs⟩] := by
  induction cs generalizing acc with
  | nil => simp [splitPredAux]
  | cons c cs ih =>
    have hc : p c = false := h c (List.mem_cons_self c cs)
    rw [splitPredAux, if_neg (by simp [hc]),
      ih (fun d hd => h d (List.mem_cons_of_mem c hd))]
    simp

/-- `splitPredAux` walks through a separator-free chunk by accumulating it. -/
theorem splitPredAux_append_no_delim (p : Char → Bool) (xs : List Char)
    (h : ∀ c ∈ xs, p c = false) (ys acc : List Char) :
    splitPredAux p (xs ++ ys) acc = splitPredAux p ys (xs.reverse ++ acc) := by
  induction xs generalizing acc with
  | nil => simp
  | cons c cs ih =>
    have hc : p c = false := h c (List.mem_cons_self c cs)
    rw [List.cons_append, splitPredAux, if_neg (by simp [hc]),
      ih (fun d hd => h d (List.mem_cons_of_mem c hd))]
    simp

/-- After the last separator, `splitPredAux` ends with the final chunk. -/
theorem splitPredAux_last_chunk (p : Char → Bool) (d : Char) (hd : p d = true)
    (seg : List Char) (hseg : ∀ c ∈ seg, p c = false) (xs : List Char) :
    ∀ acc, ∃ front : List String, front ≠ [] ∧
      splitPredAux p (xs ++ d :: seg) acc = front ++ [⟨seg⟩] := by
  induction xs with
  | nil =>
    intro acc
    refine ⟨[⟨acc.reverse⟩], by simp, ?_⟩
    rw [List.nil_append, splitPredAux, if_pos hd,
      splitPredAux_no_delim p seg hseg []]
    simp
  | cons c cs ih =>
    intro acc
    by_cases hc : p c = true
    · obtain ⟨front, hfne, hfeq⟩ := ih []
      refine ⟨⟨acc.reverse⟩ :: front, by simp, ?_⟩
      rw [List.cons_append, splitPredAux, if_pos hc, hfeq]
      simp
    · obtain ⟨front, hfne, hfeq⟩ := ih (c :: acc)
      refine ⟨front, hfne, ?_⟩
      rw [List.cons_append, splitPredAux, if_neg hc, hfeq]

/-! ## Claim C2 -/

/-- Claim C2: the reconciliation step issues no start invocation when the
selected record's phase equals `"running"` case-insensitively, and for every
other phase value it issues exactly one start invocation addressed to the
selected record's id, before the ssh connection. -/
theorem claim2_reconcilerStart (env : GitpodEnvironment) :
    (jsToLower env.phase = "running" →
      handleSshFlow env = [ToolInvocation.sshConnect (getSshHost env.id)]) ∧
    (jsToLower env.phase ≠ "running" →
      handleSshFlow env =
        [ToolInvocation.startEnv env.id,
         ToolInvocation.sshConnect (getSshHost env.id)]) := by
  constructor <;> intro h <;>
    simp [handleSshFlow, ensureEnvironmentRunning, h]

/-- Witness for claim C2 at concrete records with phases `"Running"` and
`"stopped"`. -/
theorem claim2_reconcilerStart_witness :
    handleSshFlow {
      id := "abc123", repository := "r", branch := "m",
      classId := "c", phase := "Running", repoName := "r",
      displayName := "r [m]" } =
      [ToolInvocation.sshConnect "abc123.gitpod.environment"] ∧
    handleSshFlow {
      id := "abc123", repository := "r", branch := "m",
      classId := "c", phase := "stopped", repoName := "r",
      displayName := "r [m]" } =
      [ToolInvocation.startEnv "abc123",
       ToolInvocation.sshConnect "abc123.gitpod.environment"] :=
  ⟨(claim2_reconcilerStart _).1 (by decide),
   (claim2_reconcilerStart _).2 (by decide)⟩

/-! ## Claim C3 -/

/-- Counterexample to claim C3 as stated: a completed listing invocation with
empty standard output and non-empty diagnostic text should, per the claim,
always fail with `ToolError`; but when the diagnostic text contains
`"command not found"` the error thrown inside the `try` block is caught by the
function's own `catch`, whose message test converts it into `ToolNotFound`. -/
theorem claim3_counterexample :
    getGitpodEnvironments
        (ExecOutcome.completed "" "sh: gitpod: command not found") =
      ListOutcome.toolNotFound ∧
    getGitpodEnvironments
        (ExecOutcome.completed "" "sh: gitpod: command not found") ≠
      ListOutcome.failure (listFailureMessage "sh: gitpod: command not found") ∧
    ("sh: gitpod: command not found" : String) ≠ "" := by
  refine ⟨by decide, by decide, by decide⟩

/-- Claim C3 as amended: `ToolNotFound` on a spawn failure with the platform
not-found code; when standard output is non-empty the parser runs on it and the
diagnostic text is ignored; with empty standard output and non-empty diagnostic
text the lister fails, with `ToolError` exactly when the resulting failure
message does not contain `"command not found"` and with `ToolNotFound` when it
does; any other rejection is rethrown unless its message contains
`"command not found"`. -/
theorem claim3_listerClassification :
    (∀ message, getGitpodEnvironments (ExecOutcome.errNotFound message) =
        ListOutcome.toolNotFound) ∧
    (∀ stdout stderr, stdout ≠ "" →
        getGitpodEnvironments (ExecOutcome.completed stdout stderr) =
          ListOutcome.ok (parseGitpodEnvironments stdout)) ∧
    (∀ stderr, stderr ≠ "" →
        jsIncludes (listFailureMessage stderr) NOT_FOUND_MARKER = false →
        getGitpodEnvironments (ExecOutcome.completed "" stderr) =
          ListOutcome.failure (listFailureMessage stderr)) ∧
    (∀ stderr, stderr ≠ "" →
        jsIncludes (listFailureMessage stderr) NOT_FOUND_MARKER = true →
        getGitpodEnvironments (ExecOutcome.completed "" stderr) =
          ListOutcome.toolNotFound) ∧
    (∀ message, jsIncludes message NOT_FOUND_MARKER = false →
        getGitpodEnvironments (ExecOutcome.errOther message) =
          ListOutcome.failure message) ∧
    (∀ message, jsIncludes message NOT_FOUND_MARKER = true →
        getGitpodEnvironments (ExecOutcome.errOther message) =
          ListOutcome.toolNotFound) := by
  refine ⟨fun message => rfl, ?_, ?_, ?_, ?_, ?_⟩
  · intro stdout stderr h
    simp [getGitpodEnvironments, jsTruthy, h]
  · intro stderr hne hmark
    simp [getGitpodEnvironments, jsTruthy, hne, hmark]
  · intro stderr hne hmark
    simp [getGitpodEnvironments, jsTruthy, hne, hmark]
  · intro message hmark
    simp [getGitpodEnvironments, hmark]
  · intro message hmark
    simp [getGitpodEnvironments, hmark]

/-- Witness for claim C3's amended classification at concrete outcomes. -/
theorem claim3_listerClassification_witness :
    getGitpodEnvironments
        (ExecOutcome.completed "ID REPOSITORY BRANCH CLASS PHASE" "warning") =
      ListOutcome.ok [] ∧
    getGitpodEnvironments (ExecOutcome.completed "" "boom") =
      ListOutcome.failure "Error running gitpod command: boom" ∧
    getGitpodEnvironments (ExecOutcome.completed "" "zsh: command not found: gitpod") =
      ListOutcome.toolNotFound ∧
    getGitpodEnvironments (ExecOutcome.errOther "exit status 3") =
      ListOutcome.failure "exit status 3" := by
  refine ⟨?_, ?_, ?_, ?_⟩
  · have h := claim3_listerClassification.2.1
      "ID REPOSITORY BRANCH CLASS PHASE" "warning" (by decide)
    rw [h]
    decide
  · exact claim3_listerClassification.2.2.1 "boom" (by decide) (by decide)
  · exact claim3_listerClassification.2.2.2.1
      "zsh: command not found: gitpod" (by decide) (by decide)
  · exact claim3_listerClassification.2.2.2.2.1 "exit status 3" (by decide)

/-! ## Claim C4 -/

/-- A completed start invocation, as `startEnvironment` classifies it. -/
theorem startEnvironment_completed (stdout stderr : String) :
    startEnvironment (StartOutcome.completed stdout stderr) =
      if jsIncludes stderr "error" then
        StartResult.failure (startFailureMessage (startFailureMessage stderr))
      else StartResult.ok := by
  by_cases h : jsIncludes stderr "error" = true
  · have hne : stderr ≠ "" := by
      intro he
      rw [he, jsIncludes_empty_left] at h
      exact Bool.false_ne_true h
    simp [startEnvironment, jsTruthy, h, hne]
  · have h' : jsIncludes stderr "error" = false := by
      simpa using h
    simp [startEnvironment, h']

/-- Claim C4: a completed start invocation fails (with the `ToolError` message)
exactly when its diagnostic text contains the literal substring `"error"`;
when the diagnostic text lacks that substring the invocation is treated as a
success, whatever the environment's actual state. -/
theorem claim4_startErrorIff (stdout stderr : String) :
    (startEnvironment (StartOutcome.completed stdout stderr) = StartResult.ok ↔
      jsIncludes stderr "error" = false) ∧
    (jsIncludes stderr "error" = true →
      startEnvironment (StartOutcome.completed stdout stderr) =
        StartResult.failure (startFailureMessage (startFailureMessage stderr))) := by
  rw [startEnvironment_completed]
  constructor
  · by_cases h : jsIncludes stderr "error" = true
    · simp [h]
    · simp [Bool.eq_false_iff.mpr h]
  · intro h
    simp [h]

/-- Witness for claim C4: a warning without `"error"` succeeds, a diagnostic
containing `"error"` fails. -/
theorem claim4_startErrorIff_witness :
    startEnvironment (StartOutcome.completed "" "some warning") =
      StartResult.ok ∧
    startEnvironment (StartOutcome.completed "" "error: could not start") =
      StartResult.failure
        "Failed to start environment: Failed to start environment: error: could not start" := by
  constructor
  · exact (claim4_startErrorIff "" "some warning").1.mpr (by decide)
  · exact (claim4_startErrorIff "" "error: could not start").2 (by decide)

/-! ## Claim C5 -/

/-- Counterexample to claim C5 as stated: the workspace path is wired through
JS `||`, so a caller-supplied empty-string path is falsy and is replaced by the
fixed default instead of being passed through. -/
theorem claim5_counterexample :
    openInEditorSpawn "abc123" "code" (some "") =
      { command := "code",
        args := ["--remote", "ssh-remote+abc123.gitpod.environment",
                 "/workspaces/obsidian"] } ∧
    ("/workspaces/obsidian" : String) ≠ "" := by
  refine ⟨by decide, by decide⟩

/-- Claim C5 as amended: both strategies address the host
`"{id}.gitpod.environment"`; the shell strategy launches `ssh` with that host
as its sole argument; the editor strategy launches the resolved editor with
exactly the three positional arguments `--remote`, `"ssh-remote+{host}"` and
the workspace path — the caller-supplied path when it is non-empty, and the
fixed default `"/workspaces/obsidian"` when the caller supplied none or the
empty string. -/
theorem claim5_connectionTargets (environmentId editorCommand path : String) :
    getSshHost environmentId = environmentId ++ ".gitpod.environment" ∧
    sshIntoGitpod environmentId =
      { command := "ssh", args := [environmentId ++ ".gitpod.environment"] } ∧
    openInEditorSpawn environmentId editorCommand none =
      { command := editorCommand,
        args := ["--remote",
                 "ssh-remote+" ++ (environmentId ++ ".gitpod.environment"),
                 "/workspaces/obsidian"] } ∧
    (path ≠ "" →
      openInEditorSpawn environmentId editorCommand (some path) =
        { command := editorCommand,
          args := ["--remote",
                   "ssh-remote+" ++ (environmentId ++ ".gitpod.environment"),
                   path] }) ∧
    openInEditorSpawn environmentId editorCommand (some "") =
      { command := editorCommand,
        args := ["--remote",
                 "ssh-remote+" ++ (environmentId ++ ".gitpod.environment"),
                 "/workspaces/obsidian"] } := by
  have hhost : getSshHost environmentId = environmentId ++ ".gitpod.environment" := by
    rw [getSshHost, SSH_HOST_SUFFIX, String.append_assoc]
    rfl
  refine ⟨hhost, ?_, ?_, ?_, ?_⟩
  · rw [sshIntoGitpod, hhost]
  · rw [openInEditorSpawn, hhost]
    rfl
  · intro h
    rw [openInEditorSpawn, hhost]
    simp [jsOrDefault, h]
  · rw [openInEditorSpawn, hhost]
    rfl

/-- Witness for claim C5's amended statement at a concrete environment id,
editor and non-empty path. -/
theorem claim5_connectionTargets_witness :
    sshIntoGitpod "env42" =
      { command := "ssh", args := ["env42.gitpod.environment"] } ∧
    openInEditorSpawn "env42" "cursor" (some "/src/app") =
      { command := "cursor",
        args := ["--remote", "ssh-remote+env42.gitpod.environment",
                 "/src/app"] } :=
  ⟨(claim5_connectionTargets "env42" "cursor" "/src/app").2.1,
   (claim5_connectionTargets "env42" "cursor" "/src/app").2.2.2.1 (by decide)⟩

/-! ## Claim C8 -/

/-- Claim C8: parsing is total — every input text yields a well-defined
(possibly empty) sequence of records, with the empty sequence in the worst
case; as a Lean function the embedding is pure by construction. -/
theorem claim8_parseTotal :
    (∀ output : String, ∃ environments : List GitpodEnvironment,
        parseGitpodEnvironments output = environments) ∧
    parseGitpodEnvironments "" = [] ∧
    parseGitpodEnvironments "header only" = [] ∧
    parseGitpodEnvironments "HEADER\nnot enough tokens" = [] :=
  ⟨fun _ => ⟨_, rfl⟩, rfl, by decide, by decide⟩

/-! ## Claim C1 -/

/-- The row mapping of the parser in filter-then-map normal form. -/
theorem filterMap_parseLine_eq (ls : List String) :
    ls.filterMap parseLine =
      (ls.filter (fun l => 5 ≤ (jsSplitWs l).length)).map
        (fun l => mkEnvironment (jsSplitWs l)) := by
  induction ls with
  | nil => rfl
  | cons l ls ih =>
    by_cases h : (jsSplitWs l).length < 5
    · have h' : ¬ 5 ≤ (jsSplitWs l).length := Nat.not_le.mpr h
      simp [parseLine, h, h', List.filter_cons, ih]
    · have h' : 5 ≤ (jsSplitWs l).length := Nat.not_lt.mp h
      simp [parseLine, h, h', List.filter_cons, ih]

/-- Claim C1: for every input text the parser keeps exactly the non-blank
post-header lines (of the whitespace-trimmed input, as the parser splits it)
that yield at least five whitespace-separated tokens — fewer than five tokens
yields no record, five or more yields exactly one, in source-line order — and
a row's record depends only on its first five tokens. -/
theorem claim1_fieldCountGate (output : String) :
    parseGitpodEnvironments output =
      ((dataLines output).filter (fun l => 5 ≤ (jsSplitWs l).length)).map
        (fun l => mkEnvironment (jsSplitWs l)) ∧
    ∀ parts : List String, mkEnvironment parts = mkEnvironment (parts.take 5) := by
  constructor
  · exact filterMap_parseLine_eq (dataLines output)
  · intro parts
    have h : ∀ i : ℕ, i < 5 → (parts.take 5).getD i "" = parts.getD i "" := by
      intro i hi
      simp [List.getD_eq_getElem?_getD, List.getElem?_take, hi]
    have h0 := h 0 (by omega)
    have h1 := h 1 (by omega)
    have h2 := h 2 (by omega)
    have h3 := h 3 (by omega)
    have h4 := h 4 (by omega)
    simp [mkEnvironment, h0, h1, h2, h3, h4]

/-! ## Claim C10 -/

/-- The `src/index.js` row mapping is the `part_001` row mapping followed by
the case-insensitive running filter. -/
theorem parseLineRunning_eq (line : String) :
    parseLineRunning line =
      (parseLine line).filter (fun env => jsToLower env.phase == "running") := by
  unfold parseLineRunning parseLine
  by_cases h5 : (jsSplitWs line).length < 5
  · simp [h5, Option.filter]
  · by_cases hr : jsToLower ((jsSplitWs line).getD 4 "") = "running"
    · simp [h5, hr, Option.filter, mkEnvironment]
    · simp [h5, hr, Option.filter, mkEnvironment]

/-- `filterMap` of an option-filtered function is a `filter` after
`filterMap`. -/
theorem filterMap_option_filter {α β : Type} (f : α → Option β) (p : β → Bool)
    (l : List α) :
    l.filterMap (fun a => (f a).filter p) = (l.filterMap f).filter p := by
  induction l with
  | nil => rfl
  | cons a l ih =>
    cases hf : f a with
    | none => simpa [hf, Option.filter] using ih
    | some b =>
      by_cases hp : p b
      · simpa [hf, hp, Option.filter, List.filter_cons] using ih
      · simpa [hf, hp, Option.filter, List.filter_cons] using ih

/-- Claim C10: the parser of `src/index.js` equals the parser of
`src/unnamed/part_001` composed with the filter keeping only records whose
phase is `"running"` case-insensitively; every record it returns is therefore
classified as running. -/
theorem claim10_indexRefinement (output : String) :
    parseGitpodEnvironmentsIndex output =
      (parseGitpodEnvironments output).filter
        (fun env => jsToLower env.phase == "running") ∧
    ∀ env ∈ parseGitpodEnvironmentsIndex output,
      jsToLower env.phase = "running" := by
  have heq : parseGitpodEnvironmentsIndex output =
      (parseGitpodEnvironments output).filter
        (fun env => jsToLower env.phase == "running") := by
    show (dataLines output).filterMap parseLineRunning =
      ((dataLines output).filterMap parseLine).filter
        (fun env => jsToLower env.phase == "running")
    rw [← filterMap_option_filter]
    exact List.filterMap_congr (fun l _ => parseLineRunning_eq l)
  refine ⟨heq, ?_⟩
  intro env hmem
  rw [heq] at hmem
  have := List.of_mem_filter hmem
  simpa using this

/-- Witness for claim C10 at a concrete two-row listing with one running and
one stopped environment. -/
theorem claim10_indexRefinement_witness :
    parseGitpodEnvironmentsIndex
        "ID REPO BRANCH CLASS PHASE\na r b c Running\nd r b c stopped" =
      (parseGitpodEnvironments
          "ID REPO BRANCH CLASS PHASE\na r b c Running\nd r b c stopped").filter
        (fun env => jsToLower env.phase == "running") ∧
    jsToLower ({
      id := "a", repository := "r", branch := "b", classId := "c",
      phase := "Running", repoName := "r",
      displayName := "r [b]" } : GitpodEnvironment).phase = "running" := by
  constructor
  · exact (claim10_indexRefinement
      "ID REPO BRANCH CLASS PHASE\na r b c Running\nd r b c stopped").1
  · exact (claim10_indexRefinement
      "ID REPO BRANCH CLASS PHASE\na r b c Running\nd r b c stopped").2
      _ (by decide)

/-! ## Claim C6 -/

/-- When the repository url ends in a `".git"`-suffixed, `'/'`-delimited final
segment, `extractRepoName` yields that segment with the suffix stripped (the
regex's captured group). -/
theorem extractRepoName_segment (front seg : String) (hseg : seg ≠ "")
    (hnoslash : '/' ∉ seg.data) :
    extractRepoName (front ++ "/" ++ seg ++ ".git") = seg := by
  have hdata : (front ++ "/" ++ seg ++ ".git").data =
      (front.data ++ '/' :: seg.data) ++ ".git".data := by
    simp [String.data_append]
  have hsuffix : List.isSuffixOf ".git".data
      ((front.data ++ '/' :: seg.data) ++ ".git".data) = true :=
    List.isSuffixOf_iff_suffix.mpr (List.suffix_append _ _)
  have hlen : ((front.data ++ '/' :: seg.data) ++ ".git".data).length - 4 =
      (front.data ++ '/' :: seg.data).length := by
    simp [List.length_append]
    omega
  have htake : (((front.data ++ '/' :: seg.data) ++ ".git".data).take
      ((((front.data ++ '/' :: seg.data) ++ ".git".data)).length - 4)) =
      front.data ++ '/' :: seg.data := by
    rw [hlen]
    exact List.take_left' rfl
  obtain ⟨fr, hfne, hfeq⟩ :=
    splitPredAux_last_chunk (fun c => c = '/') '/' (by simp) seg.data
      (fun c hc => decide_eq_false (fun he => hnoslash (he ▸ hc)))
      front.data []
  have hlast : (splitPredAux (fun c => c = '/')
      (front.data ++ '/' :: seg.data) []).getLastD "" = seg := by
    rw [hfeq, List.getLastD_eq_getLast?, List.getLast?_concat]
    rfl
  have hlen2 : 2 ≤ (splitPredAux (fun c => c = '/')
      (front.data ++ '/' :: seg.data) []).length := by
    rw [hfeq]
    rcases fr with _ | ⟨a, l⟩
    · exact absurd rfl hfne
    · simp
  simp only [extractRepoName, hdata, hsuffix, if_true, htake, hlast]
  rw [if_pos ⟨hlen2, hseg⟩]

/-- Claim C6: for every kept row, `repoName` is the last `'/'`-delimited,
`".git"`-suffixed segment of the repository url with the suffix stripped when
such a segment exists, and the url verbatim otherwise; `displayName` is exactly
`repoName`, a space, `"["`, the branch, and `"]"`. -/
theorem claim6_repoNameDerivation :
    (∀ output : String, ∀ env ∈ parseGitpodEnvironments output,
        env.repoName = extractRepoName env.repository ∧
        env.displayName = env.repoName ++ " [" ++ env.branch ++ "]") ∧
    (∀ front seg : String, seg ≠ "" → '/' ∉ seg.data →
        extractRepoName (front ++ "/" ++ seg ++ ".git") = seg) ∧
    (∀ r : String, List.isSuffixOf ".git".data r.data = false →
        extractRepoName r = r) ∧
    extractRepoName "https://example.com/org/repo.git" = "repo" ∧
    extractRepoName "git@host:org/repo" = "git@host:org/repo" := by
  refine ⟨?_, extractRepoName_segment, ?_, by decide, by decide⟩
  · intro output env hmem
    unfold parseGitpodEnvironments at hmem
    obtain ⟨line, -, hline⟩ := List.mem_filterMap.mp hmem
    unfold parseLine at hline
    by_cases h5 : (jsSplitWs line).length < 5
    · simp [h5] at hline
    · simp [h5] at hline
      subst hline
      constructor <;> simp [mkEnvironment]
  · intro r hr
    simp [extractRepoName, hr]

/-- Witness for claim C6 at a concrete listing row and a concrete segmented
url. -/
theorem claim6_repoNameDerivation_witness :
    ({ id := "abc123", repository := "https://github.com/org/proj.git",
       branch := "main", classId := "default", phase := "running",
       repoName := "proj",
       displayName := "proj [main]" } : GitpodEnvironment).repoName =
      extractRepoName "https://github.com/org/proj.git" ∧
    extractRepoName ("https://github.com/org" ++ "/" ++ "proj" ++ ".git") =
      "proj" := by
  constructor
  · exact (claim6_repoNameDerivation.1
      "ID REPOSITORY BRANCH CLASS PHASE\nabc123 https://github.com/org/proj.git main default running"
      _ (by decide)).1
  · exact claim6_repoNameDerivation.2.1 "https://github.com/org" "proj"
      (by decide) (by decide)

/-! ## Claim C9 -/

/-- Any record produced by the row mapping has a non-empty id: the id is the
first whitespace token of a row with at least five tokens, and tokenisation
only yields non-empty tokens. -/
theorem parsed_id_nonempty_aux {line : String} {env : GitpodEnvironment}
    (h : parseLine line = some env) : env.id ≠ "" := by
  unfold parseLine at h
  by_cases h5 : (jsSplitWs line).length < 5
  · simp [h5] at h
  · simp [h5] at h
    rcases hl : jsSplitWs line with _ | ⟨p0, rest⟩
    · rw [hl] at h5
      simp at h5
    · have hmem : p0 ∈ jsSplitWs line := by
        rw [hl]
        exact List.mem_cons_self p0 rest
      have hp0 : p0 ≠ "" := by
        have := List.of_mem_filter (p := fun t => t ≠ "") hmem
        simpa using this
      rw [← h]
      simp [mkEnvironment, hl]
      exact hp0

/-- Claim C9 as amended: in every sequence of records produced by one parse,
every record's id is a non-empty string.  (Uniqueness of ids is an assumption
about the external listing tool's output, not enforced by the parser — see the
counterexample.) -/
theorem claim9_idNonempty (output : String) (env : GitpodEnvironment)
    (h : env ∈ parseGitpodEnvironments output) : env.id ≠ "" := by
  unfold parseGitpodEnvironments at h
  obtain ⟨line, -, hline⟩ := List.mem_filterMap.mp h
  exact parsed_id_nonempty_aux hline

/-- Witness for claim C9's amended statement at a concrete listing. -/
theorem claim9_idNonempty_witness :
    ({ id := "abc123", repository := "r", branch := "b", classId := "c",
       phase := "running", repoName := "r",
       displayName := "r [b]" } : GitpodEnvironment).id ≠ "" :=
  claim9_idNonempty "H X Y Z W\nabc123 r b c running" _ (by decide)

/-- Counterexample to claim C9 as stated: the parser never deduplicates, so a
listing whose data rows repeat a first token yields distinct records sharing
one id. -/
theorem claim9_counterexample :
    parseGitpodEnvironments
        "ID REPOSITORY BRANCH CLASS PHASE\nenv1 repoA main small running\nenv1 repoB main small stopped" =
      [{ id := "env1", repository := "repoA", branch := "main",
         classId := "small", phase := "running", repoName := "repoA",
         displayName := "repoA [main]" },
       { id := "env1", repository := "repoB", branch := "main",
         classId := "small", phase := "stopped", repoName := "repoB",
         displayName := "repoB [main]" }] ∧
    ({ id := "env1", repository := "repoA", branch := "main",
       classId := "small", phase := "running", repoName := "repoA",
       displayName := "repoA [main]" } : GitpodEnvironment) ≠
      { id := "env1", repository := "repoB", branch := "main",
        classId := "small", phase := "stopped", repoName := "repoB",
        displayName := "repoB [main]" } ∧
    ({ id := "env1", repository := "repoA", branch := "main",
       classId := "small", phase := "running", repoName := "repoA",
       displayName := "repoA [main]" } : GitpodEnvironment).id =
      ({ id := "env1", repository := "repoB", branch := "main",
         classId := "small", phase := "stopped", repoName := "repoB",
         displayName := "repoB [main]" } : GitpodEnvironment).id := by
  refine ⟨by decide, by decide, rfl⟩

/-! ## Claim C7 -/

/-- What remains after dropping the header line of `header ++ "\n" ++ rest`:
the lines of the end-trimmed remainder — independent of the (non-blank,
newline-free) header's content. -/
theorem splitLines_trim_append (h rest : String) (hn : '\n' ∉ h.data)
    (hne : jsTrim h ≠ "") :
    (splitLines (jsTrim (h ++ "\n" ++ rest))).drop 1 =
      if rest.data.reverse.dropWhile jsWhitespace = [] then ([] : List String)
      else splitPredAux (fun c => c = '\n') (trimEndChars rest.data) [] := by
  have hA : h.data.dropWhile jsWhitespace ≠ [] := by
    intro hA0
    apply hne
    show (⟨trimChars h.data⟩ : String) = ""
    rw [trimChars_eq_nil_of_dropWhile_nil hA0]
  have hAmem : ∀ c ∈ h.data.dropWhile jsWhitespace, c ∈ h.data :=
    fun _ hc => (List.dropWhile_sublist _).mem hc
  have hAn : '\n' ∉ h.data.dropWhile jsWhitespace := fun hc => hn (hAmem _ hc)
  have hdata : (h ++ "\n" ++ rest).data = h.data ++ '\n' :: rest.data := by
    simp [String.data_append]
  have hstep1 : (h.data ++ '\n' :: rest.data).dropWhile jsWhitespace =
      h.data.dropWhile jsWhitespace ++ '\n' :: rest.data := by
    rw [List.dropWhile_append, if_neg (by simp [hA])]
  have hrev : (h.data.dropWhile jsWhitespace ++ '\n' :: rest.data).reverse =
      rest.data.reverse ++ '\n' :: (h.data.dropWhile jsWhitespace).reverse := by
    simp
  by_cases hB : rest.data.reverse.dropWhile jsWhitespace = []
  · rw [if_pos hB]
    have htrim : trimChars (h.data ++ '\n' :: rest.data) = trimChars h.data := by
      unfold trimChars
      rw [hstep1, hrev, List.dropWhile_append, if_pos (by simp [hB])]
      have hws : jsWhitespace '\n' = true := by decide
      simp [List.dropWhile_cons, hws]
    have heq : jsTrim (h ++ "\n" ++ rest) = (⟨trimChars h.data⟩ : String) := by
      show (⟨trimChars (h ++ "\n" ++ rest).data⟩ : String) = _
      rw [hdata, htrim]
    rw [heq]
    have hsingle : splitLines (⟨trimChars h.data⟩ : String) =
        [(⟨trimChars h.data⟩ : String)] := by
      unfold splitLines
      exact splitPredAux_no_delim _ _
        (fun c hc => by
          have hcne : c ≠ '\n' := fun he => hn (mem_of_mem_trimChars (he ▸ hc))
          simpa using hcne) []
    rw [hsingle]
    rfl
  · rw [if_neg hB]
    have htrim : trimChars (h.data ++ '\n' :: rest.data) =
        h.data.dropWhile jsWhitespace ++ '\n' :: trimEndChars rest.data := by
      unfold trimChars
      rw [hstep1, hrev, List.dropWhile_append, if_neg (by simp [hB])]
      simp [trimEndChars]
    have heq : jsTrim (h ++ "\n" ++ rest) =
        (⟨h.data.dropWhile jsWhitespace ++ '\n' :: trimEndChars rest.data⟩ : String) := by
      show (⟨trimChars (h ++ "\n" ++ rest).data⟩ : String) = _
      rw [hdata, htrim]
    rw [heq]
    show (splitPredAux (fun c => c = '\n')
        (h.data.dropWhile jsWhitespace ++ '\n' :: trimEndChars rest.data) []).drop 1 = _
    rw [splitPredAux_append_no_delim _ _
      (fun c hc => by
        have hcne : c ≠ '\n' := fun he => hAn (he ▸ hc)
        simpa using hcne) _ _]
    rw [splitPredAux, if_pos (by simp)]
    rfl

/-- Claim C7: the parser unconditionally discards the first line as the header
regardless of its content (two inputs differing only in their non-blank header
line parse identically), and any input consisting of a single line — however
well-formed — parses to the empty sequence. -/
theorem claim7_headerDiscarded :
    (∀ h₁ h₂ rest : String, '\n' ∉ h₁.data → '\n' ∉ h₂.data →
        jsTrim h₁ ≠ "" → jsTrim h₂ ≠ "" →
        parseGitpodEnvironments (h₁ ++ "\n" ++ rest) =
          parseGitpodEnvironments (h₂ ++ "\n" ++ rest)) ∧
    (∀ s : String, '\n' ∉ s.data → parseGitpodEnvironments s = []) := by
  constructor
  · intro h₁ h₂ rest hn₁ hn₂ hne₁ hne₂
    show (((splitLines (jsTrim (h₁ ++ "\n" ++ rest))).drop 1).filter
        (fun line => jsTrim line ≠ "")).filterMap parseLine =
      (((splitLines (jsTrim (h₂ ++ "\n" ++ rest))).drop 1).filter
        (fun line => jsTrim line ≠ "")).filterMap parseLine
    rw [splitLines_trim_append h₁ rest hn₁ hne₁,
        splitLines_trim_append h₂ rest hn₂ hne₂]
  · intro s hn
    have hsn : '\n' ∉ (jsTrim s).data := fun hm => hn (mem_of_mem_trimChars hm)
    have hsingle : splitLines (jsTrim s) = [jsTrim s] := by
      unfold splitLines
      exact splitPredAux_no_delim _ _ (fun c hc => by
        have hcne : c ≠ '\n' := fun he => hsn (he ▸ hc)
        simpa using hcne) []
    show (((splitLines (jsTrim s)).drop 1).filter
        (fun line => jsTrim line ≠ "")).filterMap parseLine = []
    rw [hsingle]
    rfl

/-- Witness for claim C7: a realistic header and a nonsense header are
interchangeable, and a single-line input parses to nothing. -/
theorem claim7_headerDiscarded_witness :
    parseGitpodEnvironments
        ("ID REPOSITORY BRANCH CLASS PHASE" ++ "\n" ++ "a b c d e") =
      parseGitpodEnvironments ("XYZ" ++ "\n" ++ "a b c d e") ∧
    parseGitpodEnvironments "a b c d e" = [] :=
  ⟨claim7_headerDiscarded.1 "ID REPOSITORY BRANCH CLASS PHASE" "XYZ"
      "a b c d e" (by decide) (by decide) (by decide) (by decide),
   claim7_headerDiscarded.2 "a b c d e" (by decide)⟩
